import Mathlib

/-!
Shallow embedding of `scripts/prepare_TAT.py`: text normalization
(`clean_text`), validation (`validate_transcription`), the audio path
resolver (`get_wav_from_txt`), and the manifest-building loop of `main`.

Python strings are modelled as `List Char` (`PyStr`); a Python exception
is modelled by `PyResult.exn`.
-/

set_option maxRecDepth 4000

abbrev PyStr := List Char

/-- Python exceptions raised by the script. -/
inductive PyError where
  | indexError : PyError
  | valueError : PyError
  | notImplementedError : PyError
deriving DecidableEq, Repr

/-- Result of running a piece of Python code: a value or a raised exception. -/
inductive PyResult (α : Type) where
  | ok : α → PyResult α
  | exn : PyError → PyResult α
deriving DecidableEq, Repr

/-- The three transcript-type tags: `TAILO = "台羅"`, `TAILONUM = "台羅數字調"`,
`TAIWEN = "漢羅台文"`. -/
inductive TranscriptType where
  | TAILO : TranscriptType
  | TAILONUM : TranscriptType
  | TAIWEN : TranscriptType
deriving DecidableEq, Repr

open TranscriptType

/-- Whitespace stripped by Python `str.strip()` (the ASCII whitespace class:
space, tab, newline, carriage return, vertical tab, form feed). -/
def isPySpace (c : Char) : Bool :=
  c == ' ' || c == '\t' || c == '\n' || c == '\r' ||
  c == Char.ofNat 11 || c == Char.ofNat 12

/-- Python `txt.strip()`: drop whitespace from both ends. -/
def pyStrip (l : PyStr) : PyStr :=
  ((l.dropWhile isPySpace).reverse.dropWhile isPySpace).reverse

/-- Python `txt.replace(old, new)` for a single-character `old`: every
occurrence of `old` is replaced by the string `new`. -/
def replaceChar (old : Char) (new : PyStr) : PyStr → PyStr
  | [] => []
  | c :: rest => (if c = old then new else [c]) ++ replaceChar old new rest

/-- The apostrophe character `'` (avoiding a literal in source). -/
def apos : Char := Char.ofNat 39

/-- The straight double-quote character `"`. -/
def dquote : Char := Char.ofNat 34

/-- `CLEAN_MAPPING[TAILONUM]`, in the dict's insertion order; each key is a
single character, each value the replacement string. -/
def CLEAN_MAPPING_TAILONUM : List (Char × PyStr) :=
  [('﹖', ['?']),
   ('！', ['!']),
   ('％', ['%']),
   ('（', ['(']),
   ('）', [')']),
   ('，', [',']),
   ('：', [':']),
   ('；', [';']),
   ('？', ['?']),
   ('—', ['-', '-']),
   ('─', ['-'])]

/-- `CLEAN_MAPPING[TAIWEN]`, in the dict's insertion order. -/
def CLEAN_MAPPING_TAIWEN : List (Char × PyStr) :=
  [('﹖', ['？']),
   ('?', ['？']),
   ('!', ['！']),
   ('(', ['（']),
   (')', ['）']),
   (',', ['，']),
   (':', ['：']),
   (';', ['；'])]

/-- `ACCEPTABLE_CHARS`: the fixed acceptance set of the charset validator. -/
def ACCEPTABLE_CHARS : PyStr :=
  "0123456789".data ++
  "ABCDEFGHIJKLMNOPQRSTUVWXYZ".data ++
  "abcdefghijklmnopqrstuvwxyz".data ++
  "àáéìîòúāō".data ++
  [' '] ++
  ['!', dquote, '%', '(', ')', '+', ',', '-', '.', '/', ':', ';', '=', '?', '_', '~'] ++
  ['‘', '’', '“', '”', apos] ++
  "…⋯".data ++
  "、。『』".data ++
  "－".data

/-- `get_wav_from_txt`: the destructuring assignment
`[wav_path] = (wav_dir / spk_name).glob(pattern)` succeeds exactly on a
one-element glob result and raises `ValueError` otherwise. The glob result
is passed in as a list of matches. -/
def get_wav_from_txt {α : Type} (globMatches : List α) : PyResult α :=
  match globMatches with
  | [w] => PyResult.ok w
  | _ => PyResult.exn PyError.valueError

/-- Replace each character of `ks`, in order, by a single space: the seven
sequential `txt.replace(..., " ")` calls of `clean_text`. -/
def replaceEach (ks : List Char) (l : PyStr) : PyStr :=
  ks.foldl (fun acc k => replaceChar k [' '] acc) l

/-- The characters `clean_text` sends to a space for `TAILONUM`, in the
source's order of `replace` calls: apostrophe, straight double quote, the
two curly double quotes, colon, and both parentheses. -/
def stripChars : List Char := [apos, dquote, '“', '”', ':', ')', '(']

/-- Lines 82-90 of `clean_text` for `TAILONUM`: strip, replace the seven
characters by spaces, strip again. -/
def tailonum_stripped (txt : PyStr) : PyStr :=
  pyStrip (replaceEach stripChars (pyStrip txt))

/-- Lines 82-92 of `clean_text` for `TAILONUM`: additionally turn a
trailing comma into a period. -/
def tailonum_core (txt : PyStr) : PyStr :=
  if (tailonum_stripped txt).getLast? = some ',' then
    (tailonum_stripped txt).dropLast ++ ['.']
  else tailonum_stripped txt

/-- Lines 97-98 of `clean_text` for `TAIWEN`: turn a trailing full-width
comma into a full-width period. -/
def taiwen_core (txt : PyStr) : PyStr :=
  if txt.getLast? = some '，' then txt.dropLast ++ ['。'] else txt

/-- `clean_text(txt, transcript_type)`. Indexing `txt[-1]` on an empty
string raises `IndexError`; the unknown-variant branch raises
`NotImplementedError`. -/
def clean_text (txt : PyStr) (transcript_type : TranscriptType) : PyResult PyStr :=
  match transcript_type with
  | TAILONUM =>
    match (tailonum_core txt).getLast? with
    | none => PyResult.exn PyError.indexError
    | some c =>
      PyResult.ok (if c = '?' ∨ c = '!' ∨ c = '.' then tailonum_core txt
                   else tailonum_core txt ++ ['.'])
  | TAIWEN =>
    match (taiwen_core txt).getLast? with
    | none => PyResult.exn PyError.indexError
    | some c =>
      PyResult.ok (if c = '？' ∨ c = '。' ∨ c = '！' then taiwen_core txt
                   else taiwen_core txt ++ ['。'])
  | TAILO => PyResult.exn PyError.notImplementedError

/-- Forget which exception was raised: `some` on normal return, `none` on
any raised exception. -/
def pyResultToOption {α : Type} : PyResult α → Option α
  | PyResult.ok a => some a
  | PyResult.exn _ => none

/-- The normalization steps claimed for `TailoNumeric`, written from the
spec's words: trim leading/trailing whitespace; replace apostrophe,
straight double quote, curly double quotes, colon and both parentheses
each with a single space; re-trim; replace a trailing comma with a period.
(The spec names the two parentheses as a pair without fixing their order;
the order here matches the source's.) -/
def spec_tailonum_steps (txt : PyStr) : PyStr :=
  let trimmed := pyStrip txt
  let replaced := replaceEach [apos, dquote, '“', '”', ':', ')', '('] trimmed
  let retrimmed := pyStrip replaced
  if retrimmed.getLast? = some ',' then retrimmed.dropLast ++ ['.'] else retrimmed

/-- The claimed normalization for `TailoNumeric`: the steps above, then
append a period when the final character is not one of `? ! .`; undefined
(`none`) when there is no final character to inspect. -/
def spec_normalize_TailoNumeric (txt : PyStr) : Option PyStr :=
  match (spec_tailonum_steps txt).getLast? with
  | none => none
  | some c =>
    some (if c = '?' ∨ c = '!' ∨ c = '.' then spec_tailonum_steps txt
          else spec_tailonum_steps txt ++ ['.'])

/-- The normalization steps claimed for `SinicizedTaiwanese`, written from
the spec's words: replace a trailing full-width comma with the full-width
period. -/
def spec_taiwen_steps (txt : PyStr) : PyStr :=
  if txt.getLast? = some '，' then txt.dropLast ++ ['。'] else txt

/-- The claimed normalization for `SinicizedTaiwanese`: the step above,
then append the full-width period when the final character is not one of
the three full-width terminal marks; undefined (`none`) on empty text. -/
def spec_normalize_SinicizedTaiwanese (txt : PyStr) : Option PyStr :=
  match (spec_taiwen_steps txt).getLast? with
  | none => none
  | some c =>
    some (if c = '？' ∨ c = '。' ∨ c = '！' then spec_taiwen_steps txt
          else spec_taiwen_steps txt ++ ['。'])

/-- The tokenizer collaborator used by the `TAIWEN` validator: `encode` is
`tokenizer(s)["input_ids"]`, `decode` is
`tokenizer.decode(ids, skip_special_tokens=True)`. -/
structure Tokenizer where
  encode : PyStr → List Nat
  decode : List Nat → PyStr

/-- Applying a substitution map: the loop
`for bad_char, good_char in CLEAN_MAPPING[...].items(): s = s.replace(bad_char, good_char)`. -/
def applyMapping (m : List (Char × PyStr)) (txt : PyStr) : PyStr :=
  m.foldl (fun acc p => replaceChar p.1 p.2 acc) txt

/-- The scan loop of the charset validator: stop at the first character not
in `ACCEPTABLE_CHARS`, returning `(None, bad_count + 1)` and the offending
character (which the source prints); on a full pass return the cleaned
string with `bad_count` unchanged. -/
def scanLoop (cleaned : PyStr) (bad_count : Nat) :
    PyStr → Option PyStr × Nat × Option Char
  | [] => (some cleaned, bad_count, none)
  | c :: rest =>
    if c ∈ ACCEPTABLE_CHARS then scanLoop cleaned bad_count rest
    else (none, bad_count + 1, some c)

/-- `validate_transcription(transcript, transcript_type, bad_count, tokenizer)`:
returns the accepted text (or `none` on rejection), the updated rejection
count, and the offending character the charset branch would print. -/
def validate_transcription (transcript : PyStr) (transcript_type : TranscriptType)
    (bad_count : Nat) (tokenizer : Tokenizer) :
    PyResult (Option PyStr × Nat × Option Char) :=
  match transcript_type with
  | TAILONUM =>
    let cleaned := applyMapping CLEAN_MAPPING_TAILONUM transcript
    PyResult.ok (scanLoop cleaned bad_count cleaned)
  | TAIWEN =>
    let cleaned := applyMapping CLEAN_MAPPING_TAIWEN transcript
    let decoded := tokenizer.decode (tokenizer.encode cleaned)
    if cleaned ≠ decoded then PyResult.ok (none, bad_count + 1, none)
    else PyResult.ok (some cleaned, bad_count, none)
  | TAILO => PyResult.exn PyError.notImplementedError

/-- The validation loop of `main` (lines 180-192): iterate the records in
order, threading `bad_count`, appending a `(wav_path, result)` row exactly
when validation accepts. -/
def process_records {α : Type} (transcript_type : TranscriptType) (tokenizer : Tokenizer) :
    List (α × PyStr) → Nat → PyResult (List (α × PyStr) × Nat)
  | [], bad_count => PyResult.ok ([], bad_count)
  | (wav_path, transcript) :: rest, bad_count =>
    match validate_transcription transcript transcript_type bad_count tokenizer with
    | PyResult.exn e => PyResult.exn e
    | PyResult.ok (result, bad_count2, _) =>
      match process_records transcript_type tokenizer rest bad_count2 with
      | PyResult.exn e => PyResult.exn e
      | PyResult.ok (rows, final_bad) =>
        PyResult.ok
          ((match result with
            | some r => (wav_path, r) :: rows
            | none => rows), final_bad)

/-- A tokenizer with no vocabulary, used only to instantiate theorems whose
variant ignores the tokenizer. -/
def nullTokenizer : Tokenizer := ⟨fun _ => [], fun _ => []⟩

/-- A lossless tokenizer (one token per character), used to instantiate
round-trip theorems. -/
def idTokenizer : Tokenizer := ⟨fun s => s.map Char.toNat, fun l => l.map Char.ofNat⟩

/-- The first character of `l` outside the acceptance set, if any: the
character at which the validator's scan loop stops. -/
def firstBad (l : PyStr) : Option Char :=
  l.find? (fun c => decide (c ∉ ACCEPTABLE_CHARS))

/-! ### Unfolding equations -/

theorem clean_text_tailonum_def (txt : PyStr) :
    clean_text txt TAILONUM =
      match (tailonum_core txt).getLast? with
      | none => PyResult.exn PyError.indexError
      | some c =>
        PyResult.ok (if c = '?' ∨ c = '!' ∨ c = '.' then tailonum_core txt
                     else tailonum_core txt ++ ['.']) := rfl

theorem clean_text_taiwen_def (txt : PyStr) :
    clean_text txt TAIWEN =
      match (taiwen_core txt).getLast? with
      | none => PyResult.exn PyError.indexError
      | some c =>
        PyResult.ok (if c = '？' ∨ c = '。' ∨ c = '！' then taiwen_core txt
                     else taiwen_core txt ++ ['。']) := rfl

theorem validate_tailonum_def (tr : PyStr) (b : Nat) (tok : Tokenizer) :
    validate_transcription tr TAILONUM b tok =
      PyResult.ok (scanLoop (applyMapping CLEAN_MAPPING_TAILONUM tr) b
        (applyMapping CLEAN_MAPPING_TAILONUM tr)) := rfl

theorem validate_taiwen_def (tr : PyStr) (b : Nat) (tok : Tokenizer) :
    validate_transcription tr TAIWEN b tok =
      (if applyMapping CLEAN_MAPPING_TAIWEN tr ≠
          tok.decode (tok.encode (applyMapping CLEAN_MAPPING_TAIWEN tr))
       then PyResult.ok (none, b + 1, none)
       else PyResult.ok (some (applyMapping CLEAN_MAPPING_TAIWEN tr), b, none)) := rfl

theorem clean_text_tailonum_eq (txt : PyStr) {c : Char}
    (hg : (tailonum_core txt).getLast? = some c) :
    clean_text txt TAILONUM =
      PyResult.ok (if c = '?' ∨ c = '!' ∨ c = '.' then tailonum_core txt
                   else tailonum_core txt ++ ['.']) := by
  rw [clean_text_tailonum_def, hg]

theorem clean_text_tailonum_none (txt : PyStr)
    (hg : (tailonum_core txt).getLast? = none) :
    clean_text txt TAILONUM = PyResult.exn PyError.indexError := by
  rw [clean_text_tailonum_def, hg]

theorem clean_text_taiwen_eq (txt : PyStr) {c : Char}
    (hg : (taiwen_core txt).getLast? = some c) :
    clean_text txt TAIWEN =
      PyResult.ok (if c = '？' ∨ c = '。' ∨ c = '！' then taiwen_core txt
                   else taiwen_core txt ++ ['。']) := by
  rw [clean_text_taiwen_def, hg]

theorem clean_text_taiwen_none (txt : PyStr)
    (hg : (taiwen_core txt).getLast? = none) :
    clean_text txt TAIWEN = PyResult.exn PyError.indexError := by
  rw [clean_text_taiwen_def, hg]

/-! ### List helper lemmas -/

theorem mem_replaceChar {c k : Char} {rep : PyStr} :
    ∀ {l : PyStr}, c ∈ replaceChar k rep l → (c ∈ l ∧ c ≠ k) ∨ c ∈ rep
  | [], h => by simp [replaceChar] at h
  | a :: t, h => by
    simp only [replaceChar, List.mem_append] at h
    rcases h with h | h
    · by_cases hak : a = k
      · subst hak
        rw [if_pos rfl] at h
        exact Or.inr h
      · rw [if_neg hak] at h
        simp only [List.mem_singleton] at h
        subst h
        exact Or.inl ⟨List.mem_cons_self c t, hak⟩
    · rcases mem_replaceChar h with ⟨hc, hck⟩ | hr
      · exact Or.inl ⟨List.mem_cons_of_mem _ hc, hck⟩
      · exact Or.inr hr

theorem replaceChar_eq_self {k : Char} {rep : PyStr} :
    ∀ {l : PyStr}, k ∉ l → replaceChar k rep l = l
  | [], _ => rfl
  | a :: t, h => by
    have hak : a ≠ k := fun e => h (e ▸ List.mem_cons_self a t)
    have ht : k ∉ t := fun hm => h (List.mem_cons_of_mem _ hm)
    simp [replaceChar, if_neg hak, replaceChar_eq_self ht]

theorem not_mem_replaceChar {c k : Char} {rep : PyStr} {l : PyStr}
    (hrep : c ∉ rep) (hcl : c ∈ l → c = k) : c ∉ replaceChar k rep l := by
  intro h
  rcases mem_replaceChar h with ⟨hc, hck⟩ | hr
  · exact hck (hcl hc)
  · exact hrep hr

theorem not_mem_replaceEach_of_not_mem {c : Char} (hc : c ≠ ' ') :
    ∀ (ks : List Char) {l : PyStr}, c ∉ l → c ∉ replaceEach ks l
  | [], _, h => h
  | k :: ks, l, h =>
    not_mem_replaceEach_of_not_mem hc ks
      (not_mem_replaceChar (by simpa using hc) (fun hm => absurd hm h))

theorem not_mem_replaceEach_of_mem {c : Char} (hc : c ≠ ' ') :
    ∀ (ks : List Char) (l : PyStr), c ∈ ks → c ∉ replaceEach ks l
  | [], _, hm => absurd hm (List.not_mem_nil c)
  | k :: ks, l, hm => by
    by_cases hck : c = k
    · subst hck
      exact not_mem_replaceEach_of_not_mem hc ks
        (not_mem_replaceChar (by simpa using hc) (fun _ => rfl))
    · have hmt : c ∈ ks := by
        rcases List.mem_cons.1 hm with h | h
        · exact absurd h hck
        · exact h
      exact not_mem_replaceEach_of_mem hc ks (replaceChar k [' '] l) hmt

theorem replaceEach_eq_self :
    ∀ (ks : List Char) {l : PyStr}, (∀ k ∈ ks, k ∉ l) → replaceEach ks l = l
  | [], _, _ => rfl
  | k :: ks, l, h => by
    have h1 : replaceChar k [' '] l = l := replaceChar_eq_self (h k (List.mem_cons_self k ks))
    show replaceEach ks (replaceChar k [' '] l) = l
    rw [h1]
    exact replaceEach_eq_self ks (fun k2 hk2 => h k2 (List.mem_cons_of_mem _ hk2))

theorem mem_pyStrip {c : Char} {l : PyStr} (h : c ∈ pyStrip l) : c ∈ l := by
  unfold pyStrip at h
  have h1 : c ∈ (l.dropWhile isPySpace).reverse.dropWhile isPySpace := List.mem_reverse.1 h
  have h2 : c ∈ (l.dropWhile isPySpace).reverse := List.dropWhile_subset _ h1
  have h3 : c ∈ l.dropWhile isPySpace := List.mem_reverse.1 h2
  exact List.dropWhile_subset _ h3

theorem head?_pyStrip_not_space {l : PyStr} {c : Char}
    (h : (pyStrip l).head? = some c) : isPySpace c = false := by
  unfold pyStrip at h
  rw [List.head?_reverse] at h
  obtain ⟨t, ht⟩ := List.dropWhile_suffix (l := (l.dropWhile isPySpace).reverse) isPySpace
  have h2 : (l.dropWhile isPySpace).reverse.getLast? = some c := by
    rw [← ht, List.getLast?_append, h]
    rfl
  rw [List.getLast?_reverse] at h2
  have h3 := List.head?_dropWhile_not isPySpace l
  rw [h2] at h3
  exact h3

theorem getLast?_pyStrip_not_space {l : PyStr} {c : Char}
    (h : (pyStrip l).getLast? = some c) : isPySpace c = false := by
  unfold pyStrip at h
  rw [List.getLast?_reverse] at h
  have h3 := List.head?_dropWhile_not isPySpace (l.dropWhile isPySpace).reverse
  rw [h] at h3
  exact h3

theorem pyStrip_eq_self {l : PyStr}
    (h1 : ∀ c, l.head? = some c → isPySpace c = false)
    (h2 : ∀ c, l.getLast? = some c → isPySpace c = false) :
    pyStrip l = l := by
  have d1 : l.dropWhile isPySpace = l := by
    cases l with
    | nil => rfl
    | cons a t => rw [List.dropWhile_cons_of_neg (by simp [h1 a rfl])]
  have d2 : l.reverse.dropWhile isPySpace = l.reverse := by
    cases hr : l.reverse with
    | nil => rfl
    | cons a t =>
      have hga : l.getLast? = some a := by rw [← List.head?_reverse, hr]; rfl
      rw [List.dropWhile_cons_of_neg (by simp [h2 a hga])]
  unfold pyStrip
  rw [d1, d2, List.reverse_reverse]

theorem head?_dropLast {α : Type} {l : List α} {c : α}
    (h : l.dropLast.head? = some c) : l.head? = some c := by
  cases l with
  | nil => simp at h
  | cons a t =>
    cases t with
    | nil => simp at h
    | cons b u => exact h

theorem head?_append_singleton {α : Type} {l : List α} {x c : α}
    (h : (l ++ [x]).head? = some c) : l.head? = some c ∨ (l = [] ∧ c = x) := by
  cases l with
  | nil => exact Or.inr ⟨rfl, (Option.some.inj h).symm⟩
  | cons a t => exact Or.inl h

theorem mem_append_singleton {α : Type} {l : List α} {x c : α}
    (h : c ∈ l ++ [x]) : c ∈ l ∨ c = x := by
  rcases List.mem_append.1 h with h | h
  · exact Or.inl h
  · exact Or.inr (List.mem_singleton.1 h)

/-! ### Scan-loop lemmas -/

theorem firstBad_eq_none_iff {l : PyStr} :
    firstBad l = none ↔ ∀ c ∈ l, c ∈ ACCEPTABLE_CHARS := by
  unfold firstBad
  rw [List.find?_eq_none]
  simp

theorem firstBad_some_spec {l : PyStr} {c : Char} (h : firstBad l = some c) :
    c ∈ l ∧ c ∉ ACCEPTABLE_CHARS := by
  unfold firstBad at h
  refine ⟨List.mem_of_find?_eq_some h, ?_⟩
  have := List.find?_some h
  simpa using this

theorem scanLoop_accept (cleaned : PyStr) (b : Nat) :
    ∀ l : PyStr, (∀ c ∈ l, c ∈ ACCEPTABLE_CHARS) →
      scanLoop cleaned b l = (some cleaned, b, none)
  | [], _ => rfl
  | c :: rest, h => by
    have hc : c ∈ ACCEPTABLE_CHARS := h c (List.mem_cons_self c rest)
    simp only [scanLoop, if_pos hc]
    exact scanLoop_accept cleaned b rest (fun x hx => h x (List.mem_cons_of_mem _ hx))

theorem scanLoop_firstBad_some (cleaned : PyStr) (b : Nat) :
    ∀ {l : PyStr} {c : Char}, firstBad l = some c →
      scanLoop cleaned b l = (none, b + 1, some c)
  | [], _, h => by cases h
  | a :: rest, c, h => by
    by_cases ha : a ∈ ACCEPTABLE_CHARS
    · have hrest : firstBad rest = some c := by
        unfold firstBad at h ⊢
        rwa [List.find?_cons_of_neg _ (by simpa using ha)] at h
      simp only [scanLoop, if_pos ha]
      exact scanLoop_firstBad_some cleaned b hrest
    · have h2 : a = c := by
        unfold firstBad at h
        rw [List.find?_cons_of_pos _ (by simpa using ha)] at h
        exact Option.some.inj h
      subst h2
      simp [scanLoop, ha]

theorem scanLoop_shape (cleaned : PyStr) (b : Nat) :
    ∀ l : PyStr, scanLoop cleaned b l = (some cleaned, b, none) ∨
      ∃ c, scanLoop cleaned b l = (none, b + 1, some c)
  | [] => Or.inl rfl
  | c :: rest => by
    by_cases h : c ∈ ACCEPTABLE_CHARS
    · simpa [scanLoop, h] using scanLoop_shape cleaned b rest
    · exact Or.inr ⟨c, by simp [scanLoop, h]⟩

/-! ### Acceptance-preservation lemmas for the substitution map -/

theorem applyMapping_acceptable :
    ∀ (m : List (Char × PyStr)) (s : PyStr),
      (∀ kv ∈ m, ∀ c ∈ kv.2, c ∈ ACCEPTABLE_CHARS) →
      (∀ c ∈ s, c ∈ ACCEPTABLE_CHARS ∨ c ∈ m.map Prod.fst) →
      ∀ c ∈ applyMapping m s, c ∈ ACCEPTABLE_CHARS
  | [], s, _, hs => by
    intro c hc
    rcases hs c hc with h | h
    · exact h
    · simp at h
  | kv :: rest, s, hval, hs => by
    intro c hc
    have hs2 : ∀ x ∈ replaceChar kv.1 kv.2 s,
        x ∈ ACCEPTABLE_CHARS ∨ x ∈ rest.map Prod.fst := by
      intro x hx
      rcases mem_replaceChar hx with ⟨hxs, hxk⟩ | hxv
      · rcases hs x hxs with h | h
        · exact Or.inl h
        · simp only [List.map_cons, List.mem_cons] at h
          rcases h with h | h
          · exact absurd h hxk
          · exact Or.inr h
      · exact Or.inl (hval kv (List.mem_cons_self _ _) x hxv)
    have hval2 : ∀ kv2 ∈ rest, ∀ c2 ∈ kv2.2, c2 ∈ ACCEPTABLE_CHARS :=
      fun kv2 h2 => hval kv2 (List.mem_cons_of_mem _ h2)
    exact applyMapping_acceptable rest (replaceChar kv.1 kv.2 s) hval2 hs2 c hc

/-! ### Claim theorems, part 1 -/

/-- Claim C1: for the TailoNumeric variant, `validate_transcription` first
applies `CLEAN_MAPPING` to the text, then accepts the cleaned string
exactly when every character of it is in `ACCEPTABLE_CHARS`; on the first
disallowed character it returns no text, increments the rejection count,
and reports that character as the diagnostic. -/
theorem validate_tailonum_first_bad_char (transcript : PyStr) (b : Nat) (tok : Tokenizer) :
    (validate_transcription transcript TAILONUM b tok =
        PyResult.ok (some (applyMapping CLEAN_MAPPING_TAILONUM transcript), b, none)
      ↔ ∀ c ∈ applyMapping CLEAN_MAPPING_TAILONUM transcript, c ∈ ACCEPTABLE_CHARS)
    ∧ ∀ c, firstBad (applyMapping CLEAN_MAPPING_TAILONUM transcript) = some c →
        validate_transcription transcript TAILONUM b tok =
          PyResult.ok (none, b + 1, some c) := by
  cases hf : firstBad (applyMapping CLEAN_MAPPING_TAILONUM transcript) with
  | none =>
    have hacc := firstBad_eq_none_iff.1 hf
    constructor
    · exact iff_of_true (by rw [validate_tailonum_def, scanLoop_accept _ _ _ hacc]) hacc
    · intro c hc
      cases hc
  | some c0 =>
    obtain ⟨hmem, hnacc⟩ := firstBad_some_spec hf
    constructor
    · apply iff_of_false
      · intro h
        rw [validate_tailonum_def, scanLoop_firstBad_some _ _ hf] at h
        simp at h
      · intro hall
        exact hnacc (hall _ hmem)
    · intro c hc
      obtain rfl := Option.some.inj hc
      rw [validate_tailonum_def, scanLoop_firstBad_some _ _ hf]

/-- Witness for C1: the cleaned form of `"a★"` is rejected at `'★'` with
the count bumped from 0 to 1. -/
theorem validate_tailonum_first_bad_char_witness :
    validate_transcription ['a', '★'] TAILONUM 0 nullTokenizer =
      PyResult.ok (none, 1, some '★') :=
  (validate_tailonum_first_bad_char ['a', '★'] 0 nullTokenizer).2 '★' (by decide)

/-- Claim C2: for the SinicizedTaiwanese variant, `validate_transcription`
applies the variant's substitution map, round-trips the cleaned string
through the tokenizer, and accepts the cleaned string iff the decoded
string is identical to it. -/
theorem validate_taiwen_roundtrip (transcript : PyStr) (b : Nat) (tok : Tokenizer) :
    (tok.decode (tok.encode (applyMapping CLEAN_MAPPING_TAIWEN transcript)) =
        applyMapping CLEAN_MAPPING_TAIWEN transcript →
      validate_transcription transcript TAIWEN b tok =
        PyResult.ok (some (applyMapping CLEAN_MAPPING_TAIWEN transcript), b, none))
    ∧ (tok.decode (tok.encode (applyMapping CLEAN_MAPPING_TAIWEN transcript)) ≠
        applyMapping CLEAN_MAPPING_TAIWEN transcript →
      validate_transcription transcript TAIWEN b tok =
        PyResult.ok (none, b + 1, none)) := by
  constructor
  · intro h
    rw [validate_taiwen_def, if_neg (by simp [h])]
  · intro h
    rw [validate_taiwen_def, if_pos (Ne.symm h)]

/-- Witness for C2: with a lossless per-character tokenizer, `"你好。"`
round-trips exactly and is accepted unchanged. -/
theorem validate_taiwen_roundtrip_witness :
    validate_transcription "你好。".data TAIWEN 0 idTokenizer =
      PyResult.ok (some (applyMapping CLEAN_MAPPING_TAIWEN "你好。".data), 0, none) :=
  (validate_taiwen_roundtrip "你好。".data 0 idTokenizer).1 (by decide)

/-- Claim C5: the audio path resolver succeeds exactly when the glob
matches exactly one entry, and on zero or two-plus matches it raises
`ValueError` (a fatal error) rather than picking a match. -/
theorem get_wav_from_txt_unique {α : Type} (globMatches : List α) :
    (∀ w, get_wav_from_txt globMatches = PyResult.ok w ↔ globMatches = [w])
    ∧ (globMatches.length ≠ 1 →
        get_wav_from_txt globMatches = PyResult.exn PyError.valueError) := by
  cases globMatches with
  | nil => exact ⟨fun w => by simp [get_wav_from_txt], fun _ => rfl⟩
  | cons a t =>
    cases t with
    | nil =>
      refine ⟨fun w => ?_, fun h => absurd rfl h⟩
      simp [get_wav_from_txt]
    | cons b u =>
      refine ⟨fun w => ?_, fun _ => rfl⟩
      simp [get_wav_from_txt]

/-- Witness for C5: a two-element glob result raises `ValueError`. -/
theorem get_wav_from_txt_unique_witness :
    get_wav_from_txt ([0, 1] : List Nat) = PyResult.exn PyError.valueError :=
  (get_wav_from_txt_unique ([0, 1] : List Nat)).2 (by decide)

/-- Claim C7 (amended): `clean_text` for the Tailo variant is not a
passthrough — it raises `NotImplementedError` on every input. -/
theorem clean_text_tailo_raises (txt : PyStr) :
    clean_text txt TAILO = PyResult.exn PyError.notImplementedError := rfl

/-- Counterexample to C7 as stated: on input `"a"` the Tailo variant does
not return its input unchanged. -/
theorem tailo_passthrough_counterexample :
    clean_text ['a'] TAILO ≠ PyResult.ok ['a'] := by decide

/-- Claim C8: the code faults on empty input — `clean_text` hits the
`txt[-1]` indexing and raises `IndexError` for whitespace-only TailoNumeric
input and for empty SinicizedTaiwanese input, instead of rejecting the
record through the per-record rejection path. -/
theorem clean_text_empty_faults :
    clean_text " ".data TAILONUM = PyResult.exn PyError.indexError
    ∧ clean_text [] TAIWEN = PyResult.exn PyError.indexError := by decide

/-- Claim C10: every replacement value in the TailoNumeric substitution map
consists only of acceptable characters, so any string whose every character
is acceptable or a key of the map is accepted by the charset validator. -/
theorem tailonum_mapping_values_acceptable :
    (∀ kv ∈ CLEAN_MAPPING_TAILONUM, ∀ c ∈ kv.2, c ∈ ACCEPTABLE_CHARS)
    ∧ ∀ (s : PyStr) (b : Nat) (tok : Tokenizer),
        (∀ c ∈ s, c ∈ ACCEPTABLE_CHARS ∨ c ∈ CLEAN_MAPPING_TAILONUM.map Prod.fst) →
        validate_transcription s TAILONUM b tok =
          PyResult.ok (some (applyMapping CLEAN_MAPPING_TAILONUM s), b, none) := by
  have hval : ∀ kv ∈ CLEAN_MAPPING_TAILONUM, ∀ c ∈ kv.2, c ∈ ACCEPTABLE_CHARS := by decide
  refine ⟨hval, fun s b tok hs => ?_⟩
  have hacc := applyMapping_acceptable CLEAN_MAPPING_TAILONUM s hval hs
  rw [validate_tailonum_def, scanLoop_accept _ _ _ hacc]

/-- Witness for C10: `"a？"` (full-width question mark, a map key) is
accepted, with the key substituted. -/
theorem tailonum_mapping_values_acceptable_witness :
    validate_transcription ['a', '？'] TAILONUM 0 nullTokenizer =
      PyResult.ok (some (applyMapping CLEAN_MAPPING_TAILONUM ['a', '？']), 0, none) :=
  tailonum_mapping_values_acceptable.2 ['a', '？'] 0 nullTokenizer (by decide)

/-! ### Claim theorems, part 2: normalization refinement -/

/-- Claim C3: for the TailoNumeric variant, `clean_text` performs exactly
the spec's steps in order (trim, replace the quote/colon/parenthesis set
by spaces, re-trim, trailing comma to period, append terminal period); in
particular `"m7-ji5,"` normalizes to `"m7-ji5."` and is charset-accepted. -/
theorem clean_text_tailonum_spec_steps :
    (∀ txt : PyStr,
      pyResultToOption (clean_text txt TAILONUM) = spec_normalize_TailoNumeric txt)
    ∧ clean_text "m7-ji5,".data TAILONUM = PyResult.ok "m7-ji5.".data
    ∧ validate_transcription "m7-ji5.".data TAILONUM 0 nullTokenizer =
        PyResult.ok (some "m7-ji5.".data, 0, none) := by
  refine ⟨fun txt => ?_, by decide, by decide⟩
  cases hg : (tailonum_core txt).getLast? with
  | none =>
    rw [clean_text_tailonum_none txt hg]
    have hs : (spec_tailonum_steps txt).getLast? = none := hg
    simp only [spec_normalize_TailoNumeric, hs]
    rfl
  | some c =>
    rw [clean_text_tailonum_eq txt hg]
    have hs : (spec_tailonum_steps txt).getLast? = some c := hg
    simp only [spec_normalize_TailoNumeric, hs]
    rfl

/-- Claim C4: for the SinicizedTaiwanese variant, `clean_text` replaces a
trailing full-width comma by the full-width period and appends the
full-width period when the final character is not a full-width terminal
mark; in particular `"你好，"` normalizes to `"你好。"`. -/
theorem clean_text_taiwen_spec_steps :
    (∀ txt : PyStr,
      pyResultToOption (clean_text txt TAIWEN) = spec_normalize_SinicizedTaiwanese txt)
    ∧ clean_text "你好，".data TAIWEN = PyResult.ok "你好。".data := by
  refine ⟨fun txt => ?_, by decide⟩
  cases hg : (taiwen_core txt).getLast? with
  | none =>
    rw [clean_text_taiwen_none txt hg]
    have hs : (spec_taiwen_steps txt).getLast? = none := hg
    simp only [spec_normalize_SinicizedTaiwanese, hs]
    rfl
  | some c =>
    rw [clean_text_taiwen_eq txt hg]
    have hs : (spec_taiwen_steps txt).getLast? = some c := hg
    simp only [spec_normalize_SinicizedTaiwanese, hs]
    rfl

/-! ### The validation loop -/

theorem validate_step_shape (tt : TranscriptType) (htt : tt = TAILONUM ∨ tt = TAIWEN)
    (tok : Tokenizer) (tr : PyStr) (b : Nat) :
    (∃ r d, validate_transcription tr tt b tok = PyResult.ok (some r, b, d))
    ∨ (∃ d, validate_transcription tr tt b tok = PyResult.ok (none, b + 1, d)) := by
  rcases htt with rfl | rfl
  · rcases scanLoop_shape (applyMapping CLEAN_MAPPING_TAILONUM tr) b
        (applyMapping CLEAN_MAPPING_TAILONUM tr) with h | ⟨c, h⟩
    · exact Or.inl ⟨_, none, by rw [validate_tailonum_def, h]⟩
    · exact Or.inr ⟨some c, by rw [validate_tailonum_def, h]⟩
  · by_cases h : applyMapping CLEAN_MAPPING_TAIWEN tr =
        tok.decode (tok.encode (applyMapping CLEAN_MAPPING_TAIWEN tr))
    · exact Or.inl ⟨applyMapping CLEAN_MAPPING_TAIWEN tr, none,
        by rw [validate_taiwen_def, if_neg (fun hne => hne h)]⟩
    · exact Or.inr ⟨none, by rw [validate_taiwen_def, if_pos h]⟩

theorem process_records_cons {α : Type} (tt : TranscriptType) (tok : Tokenizer)
    (w : α) (tr : PyStr) (rest : List (α × PyStr)) (b : Nat) :
    process_records tt tok ((w, tr) :: rest) b =
      match validate_transcription tr tt b tok with
      | PyResult.exn e => PyResult.exn e
      | PyResult.ok (result, b2, _) =>
        match process_records tt tok rest b2 with
        | PyResult.exn e => PyResult.exn e
        | PyResult.ok (rows, final_bad) =>
          PyResult.ok
            ((match result with
              | some r => (w, r) :: rows
              | none => rows), final_bad) := rfl

theorem process_records_aux {α : Type} (tt : TranscriptType)
    (htt : tt = TAILONUM ∨ tt = TAIWEN) (tok : Tokenizer) :
    ∀ (records : List (α × PyStr)) (b : Nat) (rows : List (α × PyStr)) (final : Nat),
      process_records tt tok records b = PyResult.ok (rows, final) →
      rows.length + final = records.length + b
  | [], b, rows, final => by
    intro h
    simp only [process_records, PyResult.ok.injEq, Prod.mk.injEq] at h
    obtain ⟨h1, h2⟩ := h
    subst h1
    subst h2
    simp
  | (w, tr) :: rest, b, rows, final => by
    intro h
    rcases validate_step_shape tt htt tok tr b with ⟨r, d, hv⟩ | ⟨d, hv⟩
    · simp only [process_records_cons, hv] at h
      cases hrec : process_records tt tok rest b with
      | exn e => simp [hrec] at h
      | ok pr =>
        obtain ⟨rows2, f⟩ := pr
        simp only [hrec, PyResult.ok.injEq, Prod.mk.injEq] at h
        obtain ⟨h1, h2⟩ := h
        subst h1
        subst h2
        have := process_records_aux tt htt tok rest b rows2 f hrec
        simp only [List.length_cons]
        omega
    · simp only [process_records_cons, hv] at h
      cases hrec : process_records tt tok rest (b + 1) with
      | exn e => simp [hrec] at h
      | ok pr =>
        obtain ⟨rows2, f⟩ := pr
        simp only [hrec, PyResult.ok.injEq, Prod.mk.injEq] at h
        obtain ⟨h1, h2⟩ := h
        subst h1
        subst h2
        have := process_records_aux tt htt tok rest (b + 1) rows2 f hrec
        simp only [List.length_cons]
        omega

/-- Claim C6: for the TailoNumeric and SinicizedTaiwanese variants, a run
of the validation loop that completes without a fatal error satisfies
rows + rejections = records; each record's validation either accepts
(keeping the count) or rejects (bumping the count by one). -/
theorem row_rejection_conservation {α : Type} (tt : TranscriptType)
    (htt : tt = TAILONUM ∨ tt = TAIWEN) (tok : Tokenizer) :
    (∀ (records rows : List (α × PyStr)) (final : Nat),
        process_records tt tok records 0 = PyResult.ok (rows, final) →
        rows.length + final = records.length)
    ∧ ∀ (tr : PyStr) (b : Nat),
        (∃ r d, validate_transcription tr tt b tok = PyResult.ok (some r, b, d))
        ∨ (∃ d, validate_transcription tr tt b tok = PyResult.ok (none, b + 1, d)) := by
  refine ⟨fun records rows final h => ?_, fun tr b => validate_step_shape tt htt tok tr b⟩
  simpa using process_records_aux tt htt tok records 0 rows final h

/-- Witness for C6: a one-record run under TailoNumeric accepts the record
and conserves rows + rejections. -/
theorem row_rejection_conservation_witness :
    process_records TAILONUM nullTokenizer [((0 : Nat), ['a'])] 0 =
      PyResult.ok ([((0 : Nat), ['a'])], 0)
    ∧ ([((0 : Nat), ['a'])] : List (Nat × PyStr)).length + 0 =
        ([((0 : Nat), ['a'])] : List (Nat × PyStr)).length :=
  ⟨by decide,
   (row_rejection_conservation TAILONUM (Or.inl rfl) nullTokenizer).1
     [((0 : Nat), ['a'])] [((0 : Nat), ['a'])] 0 (by decide)⟩

/-! ### Structure of normalized TailoNumeric text -/

theorem tailonum_stripped_head {txt : PyStr} {c : Char}
    (h : (tailonum_stripped txt).head? = some c) : isPySpace c = false :=
  head?_pyStrip_not_space h

theorem tailonum_stripped_getLast {txt : PyStr} {c : Char}
    (h : (tailonum_stripped txt).getLast? = some c) : isPySpace c = false :=
  getLast?_pyStrip_not_space h

theorem stripChars_not_mem_stripped (txt : PyStr) :
    ∀ k ∈ stripChars, k ∉ tailonum_stripped txt := by
  intro k hk hmem
  have h1 : k ∈ replaceEach stripChars (pyStrip txt) := mem_pyStrip hmem
  have hks : k ≠ ' ' := by
    have hall : ∀ k2 ∈ stripChars, k2 ≠ ' ' := by decide
    exact hall k hk
  exact not_mem_replaceEach_of_mem hks stripChars (pyStrip txt) hk h1

theorem tailonum_core_head {txt : PyStr} {c : Char}
    (h : (tailonum_core txt).head? = some c) : isPySpace c = false := by
  unfold tailonum_core at h
  by_cases hcond : (tailonum_stripped txt).getLast? = some ','
  · rw [if_pos hcond] at h
    rcases head?_append_singleton h with h1 | ⟨_, rfl⟩
    · exact tailonum_stripped_head (head?_dropLast h1)
    · decide
  · rw [if_neg hcond] at h
    exact tailonum_stripped_head h

theorem mem_tailonum_core {txt : PyStr} {c : Char} (h : c ∈ tailonum_core txt) :
    c ∈ tailonum_stripped txt ∨ c = '.' := by
  unfold tailonum_core at h
  by_cases hcond : (tailonum_stripped txt).getLast? = some ','
  · rw [if_pos hcond] at h
    rcases mem_append_singleton h with h1 | h1
    · exact Or.inl ((List.dropLast_sublist _).subset h1)
    · exact Or.inr h1
  · rw [if_neg hcond] at h
    exact Or.inl h

/-! ### Claim theorem C9: idempotence -/

/-- Claim C9: normalization is idempotent for every variant — whenever
`clean_text` succeeds, applying it again to its own output returns that
output unchanged (no second terminal period is appended). -/
theorem clean_text_idempotent (tt : TranscriptType) (txt y : PyStr)
    (h : clean_text txt tt = PyResult.ok y) : clean_text y tt = PyResult.ok y := by
  cases tt with
  | TAILO => simp [clean_text] at h
  | TAILONUM =>
    cases hg : (tailonum_core txt).getLast? with
    | none =>
      rw [clean_text_tailonum_none txt hg] at h
      cases h
    | some c =>
      rw [clean_text_tailonum_eq txt hg] at h
      have hy : (if c = '?' ∨ c = '!' ∨ c = '.' then tailonum_core txt
                 else tailonum_core txt ++ ['.']) = y := PyResult.ok.inj h
      obtain ⟨d, hdl, hd3⟩ :
          ∃ d, y.getLast? = some d ∧ (d = '?' ∨ d = '!' ∨ d = '.') := by
        by_cases hc3 : c = '?' ∨ c = '!' ∨ c = '.'
        · rw [if_pos hc3] at hy
          subst hy
          exact ⟨c, hg, hc3⟩
        · rw [if_neg hc3] at hy
          subst hy
          exact ⟨'.', List.getLast?_concat _, Or.inr (Or.inr rfl)⟩
      have hyh : ∀ e, y.head? = some e → isPySpace e = false := by
        intro e he
        by_cases hc3 : c = '?' ∨ c = '!' ∨ c = '.'
        · rw [if_pos hc3] at hy
          subst hy
          exact tailonum_core_head he
        · rw [if_neg hc3] at hy
          subst hy
          rcases head?_append_singleton he with h1 | ⟨_, rfl⟩
          · exact tailonum_core_head h1
          · decide
      have hyl : ∀ e, y.getLast? = some e → isPySpace e = false := by
        intro e he
        rw [hdl] at he
        obtain rfl := Option.some.inj he
        rcases hd3 with h3 | h3 | h3 <;> subst h3 <;> decide
      have hymem : ∀ k ∈ stripChars, k ∉ y := by
        intro k hk hmem
        have hknd : k ≠ '.' := by
          have hall : ∀ k2 ∈ stripChars, k2 ≠ '.' := by decide
          exact hall k hk
        have hk1 : k ∈ tailonum_core txt ∨ k = '.' := by
          by_cases hc3 : c = '?' ∨ c = '!' ∨ c = '.'
          · rw [if_pos hc3] at hy
            subst hy
            exact Or.inl hmem
          · rw [if_neg hc3] at hy
            subst hy
            exact mem_append_singleton hmem
        rcases hk1 with h1 | h1
        · rcases mem_tailonum_core h1 with h2 | h2
          · exact stripChars_not_mem_stripped txt k hk h2
          · exact hknd h2
        · exact hknd h1
      have hstrip1 : pyStrip y = y := pyStrip_eq_self hyh hyl
      have hrep : replaceEach stripChars y = y := replaceEach_eq_self stripChars hymem
      have hstr : tailonum_stripped y = y := by
        unfold tailonum_stripped
        rw [hstrip1, hrep, hstrip1]
      have hcomma : d ≠ ',' := by
        rcases hd3 with h3 | h3 | h3 <;> subst h3 <;> decide
      have hcore : tailonum_core y = y := by
        unfold tailonum_core
        rw [hstr, hdl, if_neg]
        intro he
        exact hcomma (Option.some.inj he)
      rw [clean_text_tailonum_eq y (by rw [hcore]; exact hdl), if_pos hd3, hcore]
  | TAIWEN =>
    cases hg : (taiwen_core txt).getLast? with
    | none =>
      rw [clean_text_taiwen_none txt hg] at h
      cases h
    | some c =>
      rw [clean_text_taiwen_eq txt hg] at h
      have hy : (if c = '？' ∨ c = '。' ∨ c = '！' then taiwen_core txt
                 else taiwen_core txt ++ ['。']) = y := PyResult.ok.inj h
      obtain ⟨d, hdl, hd3⟩ :
          ∃ d, y.getLast? = some d ∧ (d = '？' ∨ d = '。' ∨ d = '！') := by
        by_cases hc3 : c = '？' ∨ c = '。' ∨ c = '！'
        · rw [if_pos hc3] at hy
          subst hy
          exact ⟨c, hg, hc3⟩
        · rw [if_neg hc3] at hy
          subst hy
          exact ⟨'。', List.getLast?_concat _, Or.inr (Or.inl rfl)⟩
      have hcore : taiwen_core y = y := by
        unfold taiwen_core
        rw [hdl, if_neg]
        intro he
        have hdc := Option.some.inj he
        rcases hd3 with h3 | h3 | h3 <;> subst h3 <;> exact absurd hdc (by decide)
      rw [clean_text_taiwen_eq y (by rw [hcore]; exact hdl), if_pos hd3, hcore]

/-- Witness for C9: `"ab"` normalizes to `"ab."` under TailoNumeric, and
normalizing `"ab."` again returns it unchanged. -/
theorem clean_text_idempotent_witness :
    clean_text "ab".data TAILONUM = PyResult.ok "ab.".data
    ∧ clean_text "ab.".data TAILONUM = PyResult.ok "ab.".data :=
  ⟨by decide, clean_text_idempotent TAILONUM "ab".data "ab.".data (by decide)⟩
